import Mathlib

set_option maxRecDepth 100000
set_option maxHeartbeats 1000000

open scoped List

/-!
Shallow embedding of the retrieval-and-composition core of `src/main.py`:
a fixed six-entry teaching corpus (`TEACHINGS`), a relevance scorer
(`_score`), a selector with stable descending sort and fallback fill
(`_select_teachings`), and a tone-conditioned composer (`generate_reply`).

Python strings become Lean `String`s and Python `int` becomes `Int`.
Python's `str.split()`, `str.strip()`, `str.lower()` and the substring
operator `in` are modelled by `pySplit`, `pyStrip`, `pyLower` and `strIn`
below, written with structural recursion over character lists so that
every definition evaluates inside the kernel.  Python's `sorted(...,
key=..., reverse=True)` is a stable descending sort; a stable sort's
output is uniquely determined by the comparator and the input order, so
it is modelled by `List.insertionSort` (structural and stable) with the
comparator "the left entry's score is at least the right entry's score".
-/

/-- One corpus entry of the `TEACHINGS` table in `src/main.py`:
a dict with keys `source`, `tags`, `text`. -/
structure Teaching where
  source : String
  tags : String
  text : String
deriving DecidableEq, Repr

/-- The fixed corpus `TEACHINGS` of `src/main.py` (lines 29-60), verbatim. -/
def TEACHINGS : List Teaching := [
  { source := "Bhagavad Gita 2.47",
    tags := "krishna arjuna gita duty karma yoga dharma action",
    text := "You have the right to work, but never to the fruit of work. Let not the fruits of action be your motive, nor let your attachment be to inaction." },
  { source := "Bhagavad Gita 4.7-8",
    tags := "krishna gita avatar dharma protection righteousness",
    text := "Whenever there is decline in righteousness and rise of unrighteousness, then I manifest Myself. For the protection of the good and the destruction of the wicked, for the establishment of dharma, I appear age after age." },
  { source := "Dhammapada 1:1-2",
    tags := "buddha dhammapada mind intention suffering happiness",
    text := "Mind precedes all phenomena; mind matters most. If with an impure mind one speaks or acts, suffering follows like the wheel the foot of the ox. If with a pure mind one speaks or acts, happiness follows like a shadow that never departs." },
  { source := "Dhammapada 160",
    tags := "buddha dhammapada self effort discipline refuge",
    text := "By oneself is evil done; by oneself is one defiled. By oneself is evil left undone; by oneself is one purified. Purity and impurity depend on oneself; no one can purify another." },
  { source := "Acharanga Sutra (Jain)",
    tags := "mahavira jain ahimsa nonviolence restraint compassion",
    text := "All breathing, existing, living, sentient creatures should not be slain, nor treated with violence, nor abused, nor tormented, nor driven away." },
  { source := "Uttaradhyayana Sutra (Jain)",
    tags := "mahavira jain truth discipline conduct karma",
    text := "A man is not called wise because he talks and talks again; but if he is peaceful, loving, and fearless then he is in truth called wise." }
]

/-- `needle` occurs as a contiguous run inside `hay` (on character lists);
the model of Python's substring operator `in`. -/
def listInfixOf (needle : List Char) : List Char → Bool
  | [] => needle.isEmpty
  | c :: rest => needle.isPrefixOf (c :: rest) || listInfixOf needle rest

/-- Python's `needle in hay` substring test on strings. -/
def strIn (needle hay : String) : Bool :=
  listInfixOf needle.data hay.data

/-- Worker for `pySplit`: `acc` holds the characters of the current word
in reverse. -/
def pyWordsAux (acc : List Char) : List Char → List String
  | [] => if acc.isEmpty then [] else [String.mk acc.reverse]
  | c :: cs =>
    if c.isWhitespace then
      if acc.isEmpty then pyWordsAux [] cs
      else String.mk acc.reverse :: pyWordsAux [] cs
    else pyWordsAux (c :: acc) cs

/-- Python's `str.split()` with no argument: split on runs of whitespace,
discarding empty pieces. -/
def pySplit (s : String) : List String :=
  pyWordsAux [] s.data

/-- Python's `str.lower()` (ASCII case mapping). -/
def pyLower (s : String) : String :=
  String.mk (s.data.map Char.toLower)

/-- Removing leading and trailing whitespace from a character list. -/
def stripChars (l : List Char) : List Char :=
  ((l.dropWhile Char.isWhitespace).reverse.dropWhile Char.isWhitespace).reverse

/-- Python's `str.strip()` with no argument: remove leading and trailing
whitespace characters. -/
def pyStrip (s : String) : String :=
  String.mk (stripChars s.data)

/-- `_score` of `src/main.py` (lines 63-73): +2 per whitespace-separated
tag token occurring as a substring of the lowercased query, then +1 per
whitespace-separated word of the lowercased query that is longer than 4
characters and occurs as a substring of the lowercased entry text. -/
def _score (teaching : Teaching) (q : String) : Int :=
  let ql := pyLower q
  let s₁ := (pySplit teaching.tags).foldl
    (fun s token => if strIn token ql then s + 2 else s) 0
  (pySplit ql).foldl
    (fun s word => if decide (4 < word.length) && strIn word (pyLower teaching.text) then s + 1 else s) s₁

/-- The sort `sorted(TEACHINGS, key=lambda t: _score(t, prompt), reverse=True)`
in `_select_teachings`: Python's sort is stable, and with `reverse=True`
equal-keyed elements keep their input order, so the result is the unique
stable descending sort of the corpus, here computed by insertion sort. -/
def rankedOf (prompt : String) : List Teaching :=
  TEACHINGS.insertionSort (fun a b => _score b prompt ≤ _score a prompt)

/-- The fallback loop of `_select_teachings` (lines 82-86):
`for t in TEACHINGS: if t not in result: result.append(t); if len(result) >= limit: break`. -/
def fill (limit : Nat) (result : List Teaching) : List Teaching → List Teaching
  | [] => result
  | t :: ts =>
    let r := if t ∈ result then result else result ++ [t]
    if limit ≤ r.length then r else fill limit r ts

/-- `_select_teachings` of `src/main.py` (lines 76-87). -/
def _select_teachings (prompt : String) (limit : Nat := 2) : List Teaching :=
  let ranked := rankedOf prompt
  let result := (ranked.take limit).filter (fun t => decide (0 < _score t prompt))
  let result₂ := if result.length < limit then fill limit result TEACHINGS else result
  result₂.take limit

/-- Python's `"\n".join(lines)`. -/
def joinLines : List String → String
  | [] => ""
  | [l] => l
  | l :: ls => l ++ "\n" ++ joinLines ls

/-- The numbered lines of the scientific tone:
`for i, t in enumerate(picks, 1): lines.append(f"{i}. {t['source']}: {t['text']}")`. -/
def numbered : Nat → List Teaching → List String
  | _, [] => []
  | i, t :: ts => (toString i ++ ". " ++ t.source ++ ": " ++ t.text) :: numbered (i + 1) ts

/-- `generate_reply` of `src/main.py` (lines 90-135). -/
def generate_reply (prompt : String) (tone : String) : String :=
  let q := pyStrip prompt
  let picks := _select_teachings q 2
  if tone = "poetic" then
    joinLines (["You ask beneath the banyan: ‘" ++ q ++ "’.",
                "Listen — tradition hums like a veena across ages:"]
      ++ picks.map (fun t => "• " ++ t.text ++ " — " ++ t.source)
      ++ ["Between breath and breath, carry compassion and clarity.",
          "Walk as a flame that warms but does not burn."])
  else if tone = "scientific" then
    joinLines (["Question: " ++ q,
                "Contextual retrieval: selected teachings based on lexical overlap and tags."]
      ++ numbered 1 picks
      ++ ["Synthesis: Across Hindu, Buddhist, and Jain sources, action aligned with duty, disciplined mind, and non-violence emerge as convergent principles."])
  else if tone = "traditional" then
    joinLines (["You inquire: " ++ q,
                "Hear what elders preserve:"]
      ++ picks.map (fun t => "• " ++ t.source ++ ": " ++ t.text)
      ++ ["Take what is good, test by conduct, and proceed with humility."])
  else
    joinLines (["You asked: " ++ q,
                "Relevant teachings:"]
      ++ picks.map (fun t => "• " ++ t.source ++ ": " ++ t.text)
      ++ ["In practice: clarify intent, choose the kindest sufficient action, and learn from outcomes."])

/-- Number of newline characters in a string. -/
def countNL (s : String) : Nat := s.data.count '\n'

/-- Splitting a string at newline characters (Python's `s.split("\n")`),
used to count the newline-separated lines of a reply. -/
def nlSplitAux (acc : List Char) : List Char → List String
  | [] => [String.mk acc.reverse]
  | c :: cs => if c = '\n' then String.mk acc.reverse :: nlSplitAux [] cs else nlSplitAux (c :: acc) cs

/-- The newline-separated lines of a string. -/
def nlLines (s : String) : List String := nlSplitAux [] s.data

/-! ## Score: closed form and non-negativity -/

/-- A fold that adds `c` exactly when `p` holds counts the matching
elements: the shape of both accumulation loops in `_score`. -/
theorem foldl_if_count {α : Type} (p : α → Bool) (c : Int) :
    ∀ (l : List α) (s : Int),
      l.foldl (fun s x => if p x then s + c else s) s = s + c * ((l.filter p).length : Int) := by
  intro l
  induction l with
  | nil => intro s; simp
  | cons x xs ih =>
    intro s
    by_cases h : p x
    · simp only [List.foldl_cons, h, if_true, ih, List.filter_cons, List.length_cons]
      push_cast
      ring
    · simp only [List.foldl_cons, h, if_false, ih, List.filter_cons]
      simp [h]

/-- Closed form of `_score`: twice the number of matching tag tokens plus
the number of matching long query words. -/
theorem score_eq (t : Teaching) (q : String) :
    _score t q =
      2 * (((pySplit t.tags).filter (fun token => strIn token (pyLower q))).length : Int) +
        (((pySplit (pyLower q)).filter
          (fun word => decide (4 < word.length) && strIn word (pyLower t.text))).length : Int) := by
  unfold _score
  rw [foldl_if_count, foldl_if_count]
  ring

/-- `_score` never returns a negative value. -/
theorem score_nonneg (t : Teaching) (q : String) : 0 ≤ _score t q := by
  rw [score_eq]
  positivity

/-! ## Generic list lemmas -/

/-- Two distinct members of a list occur in one of the two relative
orders. -/
theorem pair_sublist_total {α : Type} {a b : α} :
    ∀ {l : List α}, a ∈ l → b ∈ l → a ≠ b → [a, b] <+ l ∨ [b, a] <+ l := by
  intro l
  induction l with
  | nil => intro h; cases h
  | cons x xs ih =>
    intro ha hb hne
    rcases List.mem_cons.mp ha with rfl | ha'
    · rcases List.mem_cons.mp hb with rfl | hb'
      · exact absurd rfl hne
      · exact Or.inl (List.Sublist.cons₂ _ (List.singleton_sublist.mpr hb'))
    · rcases List.mem_cons.mp hb with rfl | hb'
      · exact Or.inr (List.Sublist.cons₂ _ (List.singleton_sublist.mpr ha'))
      · exact (ih ha' hb' hne).imp (List.Sublist.cons x) (List.Sublist.cons x)

/-- In a duplicate-free list, two members cannot occur in both relative
orders. -/
theorem pair_sublist_antisymm {α : Type} {a b : α} :
    ∀ {l : List α}, l.Nodup → [a, b] <+ l → [b, a] <+ l → a = b := by
  intro l
  induction l with
  | nil => intro _ h; cases h
  | cons x xs ih =>
    intro hnd h₁ h₂
    have hx : x ∉ xs := (List.nodup_cons.mp hnd).1
    have hnd' : xs.Nodup := (List.nodup_cons.mp hnd).2
    cases h₁ with
    | cons _ h₁' =>
      cases h₂ with
      | cons _ h₂' => exact ih hnd' h₁' h₂'
      | cons₂ _ h₂' =>
        exact absurd (h₁'.subset (List.mem_cons_of_mem _ (List.mem_singleton.mpr rfl))) hx
    | cons₂ _ h₁' =>
      cases h₂ with
      | cons _ h₂' =>
        exact absurd (h₂'.subset (List.mem_cons_of_mem _ (List.mem_singleton.mpr rfl))) hx
      | cons₂ _ h₂' => rfl

/-- Splitting a list's length by a Boolean predicate. -/
theorem length_filter_pos_neg {α : Type} (p : α → Bool) (l : List α) :
    (l.filter p).length + (l.filter (fun x => !p x)).length = l.length := by
  induction l with
  | nil => rfl
  | cons x xs ih =>
    by_cases h : p x <;> simp [List.filter_cons, h] <;> omega

/-- Filtering a duplicate-free list down to the non-members of a
duplicate-free subset leaves exactly the complement's worth of length. -/
theorem length_filter_not_mem {α : Type} [DecidableEq α] {l sub : List α}
    (hl : l.Nodup) (hs : sub.Nodup) (hsub : ∀ x ∈ sub, x ∈ l) :
    (l.filter (fun t => decide (t ∉ sub))).length = l.length - sub.length := by
  have hmm : (l.filter (fun t => decide (t ∈ sub))).length = sub.length := by
    have hfnd : (l.filter (fun t => decide (t ∈ sub))).Nodup :=
      List.Nodup.sublist (List.filter_sublist _) hl
    have hperm : l.filter (fun t => decide (t ∈ sub)) ~ sub := by
      rw [List.perm_ext_iff_of_nodup hfnd hs]
      intro a
      simp only [List.mem_filter, decide_eq_true_eq]
      exact ⟨fun h => h.2, fun h => ⟨hsub a h, h⟩⟩
    exact hperm.length_eq
  have hsplit := length_filter_pos_neg (fun t => decide (t ∈ sub)) l
  have hfun : (l.filter (fun t => decide (t ∉ sub))) =
      (l.filter (fun x => !decide (x ∈ sub))) := by
    simp
  rw [hfun]
  omega

/-! ## The ranked corpus -/

theorem teachings_nodup : TEACHINGS.Nodup := by decide

theorem teachings_length : TEACHINGS.length = 6 := rfl

theorem sources_nodup : (TEACHINGS.map (fun t => t.source)).Nodup := by decide

theorem ranked_perm (q : String) : rankedOf q ~ TEACHINGS :=
  List.perm_insertionSort _ _

theorem ranked_nodup (q : String) : (rankedOf q).Nodup :=
  (ranked_perm q).nodup_iff.mpr teachings_nodup

theorem ranked_length (q : String) : (rankedOf q).length = 6 :=
  (ranked_perm q).length_eq.trans teachings_length

theorem mem_ranked {q : String} {t : Teaching} : t ∈ rankedOf q ↔ t ∈ TEACHINGS :=
  (ranked_perm q).mem_iff

/-- The ranked list is sorted by non-increasing score. -/
theorem ranked_sorted (q : String) :
    (rankedOf q).Pairwise (fun a b => _score b q ≤ _score a q) := by
  haveI : IsTotal Teaching (fun a b => _score b q ≤ _score a q) :=
    ⟨fun a b => le_total _ _⟩
  haveI : IsTrans Teaching (fun a b => _score b q ≤ _score a q) :=
    ⟨fun _ _ _ h₁ h₂ => le_trans h₂ h₁⟩
  exact List.sorted_insertionSort _ _

/-- The order relation the selector's output respects: strictly greater
score first, ties in the original corpus order. -/
def scoreRank (q : String) (a b : Teaching) : Prop :=
  _score b q < _score a q ∨ (_score a q = _score b q ∧ [a, b] <+ TEACHINGS)

/-- Sortedness plus stability: in the ranked list, scores never increase,
and equal-score entries keep their corpus order. -/
theorem ranked_rank_pairwise (q : String) : (rankedOf q).Pairwise (scoreRank q) := by
  rw [List.pairwise_iff_forall_sublist]
  intro a b hab
  have hle : _score b q ≤ _score a q :=
    List.pairwise_iff_forall_sublist.mp (ranked_sorted q) hab
  rcases lt_or_eq_of_le hle with hlt | heq
  · exact Or.inl hlt
  · refine Or.inr ⟨heq.symm, ?_⟩
    have hne : a ≠ b :=
      List.pairwise_iff_forall_sublist.mp (ranked_nodup q) hab
    have haT : a ∈ TEACHINGS := mem_ranked.mp (hab.subset (by simp))
    have hbT : b ∈ TEACHINGS := mem_ranked.mp (hab.subset (by simp))
    rcases pair_sublist_total haT hbT hne with h | h
    · exact h
    · exfalso
      have hba : [b, a] <+ rankedOf q :=
        List.pair_sublist_insertionSort heq.ge h
      exact hne (pair_sublist_antisymm (ranked_nodup q) hab hba)

/-! ## Structure of `_select_teachings` -/

/-- The positively scoring top-`limit` entries: the value of `result`
just before the fallback loop of `_select_teachings`. -/
def part1 (q : String) (limit : Nat) : List Teaching :=
  ((rankedOf q).take limit).filter (fun t => decide (0 < _score t q))

/-- What the fallback loop appends: the not-yet-included corpus entries
in corpus order, up to the missing count. -/
def extraOf (q : String) (limit : Nat) : List Teaching :=
  (TEACHINGS.filter (fun t => decide (t ∉ part1 q limit))).take (limit - (part1 q limit).length)

/-- Characterization of the fallback loop: it appends the not-yet-present
elements of `rest` in order until the limit is reached. -/
theorem fill_eq (limit : Nat) :
    ∀ (rest result : List Teaching), rest.Nodup → result.length < limit →
      fill limit result rest =
        result ++ (rest.filter (fun t => decide (t ∉ result))).take (limit - result.length) := by
  intro rest
  induction rest with
  | nil => intro result _ _; simp [fill]
  | cons t ts ih =>
    intro result hnd hlt
    have hnd' : ts.Nodup := (List.nodup_cons.mp hnd).2
    have htts : t ∉ ts := (List.nodup_cons.mp hnd).1
    by_cases hmem : t ∈ result
    · have hbreak : ¬ limit ≤ result.length := by omega
      rw [show fill limit result (t :: ts) = fill limit result ts by
        simp [fill, hmem, hbreak]]
      rw [ih result hnd' hlt]
      simp [List.filter_cons, hmem]
    · by_cases hlim : limit ≤ result.length + 1
      · have hstop : fill limit result (t :: ts) = result ++ [t] := by
          simp [fill, hmem, hlim]
        rw [hstop]
        have hdiff : limit - result.length = 1 := by omega
        simp [List.filter_cons, hmem, hdiff]
      · have hstep : fill limit result (t :: ts) = fill limit (result ++ [t]) ts := by
          simp only [fill, if_neg hmem]
          rw [if_neg (by simp; omega)]
        rw [hstep, ih (result ++ [t]) hnd' (by simp; omega)]
        have hfc : ts.filter (fun x => decide (x ∉ result ++ [t])) =
            ts.filter (fun x => decide (x ∉ result)) := by
          apply List.filter_congr
          intro x hx
          have hxt : x ≠ t := fun h => htts (h ▸ hx)
          simp [List.mem_append, hxt]
        have hdiff : limit - result.length = (limit - (result.length + 1)) + 1 := by omega
        rw [hfc, List.filter_cons, if_pos (by simp [hmem]), hdiff, List.take_succ_cons]
        simp

/-- `_select_teachings` in terms of `part1` and `extraOf`. -/
theorem select_eq (q : String) (limit : Nat) :
    _select_teachings q limit =
      if (part1 q limit).length < limit then part1 q limit ++ extraOf q limit
      else part1 q limit := by
  have hp_le : (part1 q limit).length ≤ limit :=
    le_trans (List.length_filter_le _ _) (List.length_take_le limit (rankedOf q))
  have hbody : _select_teachings q limit =
      (if (part1 q limit).length < limit then fill limit (part1 q limit) TEACHINGS
       else part1 q limit).take limit := rfl
  rw [hbody]
  by_cases h : (part1 q limit).length < limit
  · rw [if_pos h, if_pos h]
    rw [fill_eq limit TEACHINGS (part1 q limit) teachings_nodup h]
    rw [show extraOf q limit =
        (TEACHINGS.filter (fun t => decide (t ∉ part1 q limit))).take
          (limit - (part1 q limit).length) from rfl]
    apply List.take_of_length_le
    simp only [List.length_append]
    have := List.length_take_le (limit - (part1 q limit).length)
      (TEACHINGS.filter (fun t => decide (t ∉ part1 q limit)))
    omega
  · rw [if_neg h, if_neg h]
    exact List.take_of_length_le hp_le

/-! ## Facts about the two parts of the selection -/

theorem part1_sublist (q : String) (limit : Nat) : part1 q limit <+ rankedOf q :=
  (List.filter_sublist _).trans (List.take_sublist _ _)

theorem part1_nodup (q : String) (limit : Nat) : (part1 q limit).Nodup :=
  List.Nodup.sublist (part1_sublist q limit) (ranked_nodup q)

theorem part1_subset (q : String) (limit : Nat) : ∀ t ∈ part1 q limit, t ∈ TEACHINGS :=
  fun _ ht => mem_ranked.mp ((part1_sublist q limit).subset ht)

theorem part1_pos (q : String) (limit : Nat) : ∀ t ∈ part1 q limit, 0 < _score t q := by
  intro t ht
  have := List.mem_filter.mp ht
  simpa using this.2

theorem part1_le_limit (q : String) (limit : Nat) : (part1 q limit).length ≤ limit :=
  le_trans (List.length_filter_le _ _) (List.length_take_le _ _)

theorem part1_le_card (q : String) (limit : Nat) : (part1 q limit).length ≤ 6 :=
  le_trans (part1_sublist q limit).length_le (le_of_eq (ranked_length q))

theorem extra_sublist (q : String) (limit : Nat) : extraOf q limit <+ TEACHINGS :=
  (List.take_sublist _ _).trans (List.filter_sublist _)

theorem extra_nodup (q : String) (limit : Nat) : (extraOf q limit).Nodup :=
  List.Nodup.sublist (extra_sublist q limit) teachings_nodup

theorem extra_subset (q : String) (limit : Nat) : ∀ t ∈ extraOf q limit, t ∈ TEACHINGS :=
  fun _ ht => (extra_sublist q limit).subset ht

theorem extra_not_mem_part1 (q : String) (limit : Nat) :
    ∀ t ∈ extraOf q limit, t ∉ part1 q limit := by
  intro t ht
  have ht' := (List.take_sublist _ _).subset ht
  have := List.mem_filter.mp ht'
  simpa using this.2

theorem extra_length (q : String) (limit : Nat) :
    (extraOf q limit).length =
      min (limit - (part1 q limit).length) (6 - (part1 q limit).length) := by
  have hfl : (TEACHINGS.filter (fun t => decide (t ∉ part1 q limit))).length =
      6 - (part1 q limit).length := by
    rw [length_filter_not_mem teachings_nodup (part1_nodup q limit) (part1_subset q limit),
      teachings_length]
  rw [show extraOf q limit =
      (TEACHINGS.filter (fun t => decide (t ∉ part1 q limit))).take
        (limit - (part1 q limit).length) from rfl]
  rw [List.length_take, hfl]

/-- When the fallback loop runs, every entry it appends has score zero:
a positively scoring entry outside the surviving top picks would force
the top picks to all be positive, leaving nothing for the loop to do. -/
theorem extra_score_zero (q : String) (limit : Nat)
    (h : (part1 q limit).length < limit) :
    ∀ t ∈ extraOf q limit, _score t q = 0 := by
  intro t ht
  have htT : t ∈ TEACHINGS := extra_subset q limit t ht
  have hnp : t ∉ part1 q limit := extra_not_mem_part1 q limit t ht
  by_contra hne
  have hpos : 0 < _score t q := lt_of_le_of_ne (score_nonneg t q) (Ne.symm hne)
  have htr : t ∈ rankedOf q := mem_ranked.mpr htT
  rw [← List.take_append_drop limit (rankedOf q), List.mem_append] at htr
  rcases htr with htake | hdrop
  · exact hnp (List.mem_filter.mpr ⟨htake, by simpa using hpos⟩)
  · have hsorted := ranked_sorted q
    rw [← List.take_append_drop limit (rankedOf q), List.pairwise_append] at hsorted
    have hcross := hsorted.2.2
    have hall : ∀ x ∈ (rankedOf q).take limit, 0 < _score x q :=
      fun x hx => lt_of_lt_of_le hpos (hcross x hx t hdrop)
    have hfull : part1 q limit = (rankedOf q).take limit :=
      List.filter_eq_self.mpr (fun x hx => by simpa using hall x hx)
    have hplen : (part1 q limit).length = min limit 6 := by
      rw [hfull, List.length_take, ranked_length]
    have h6 : 6 < limit := by omega
    have hdropnil : (rankedOf q).drop limit = [] :=
      List.drop_eq_nil_of_le (by rw [ranked_length]; omega)
    rw [hdropnil] at hdrop
    cases hdrop

/-! ## The selector's guarantees -/

/-- The selection always has length `min limit 6`. -/
theorem select_length (q : String) (limit : Nat) :
    (_select_teachings q limit).length = min limit 6 := by
  rw [select_eq]
  have hple := part1_le_limit q limit
  have hpcard := part1_le_card q limit
  by_cases h : (part1 q limit).length < limit
  · rw [if_pos h, List.length_append, extra_length]
    omega
  · rw [if_neg h]
    omega

/-- Every selected entry comes from the corpus. -/
theorem select_subset (q : String) (limit : Nat) :
    ∀ t ∈ _select_teachings q limit, t ∈ TEACHINGS := by
  intro t ht
  rw [select_eq] at ht
  by_cases h : (part1 q limit).length < limit
  · rw [if_pos h, List.mem_append] at ht
    exact ht.elim (part1_subset q limit t) (extra_subset q limit t)
  · rw [if_neg h] at ht
    exact part1_subset q limit t ht

/-- The selection never repeats an entry. -/
theorem select_nodup (q : String) (limit : Nat) : (_select_teachings q limit).Nodup := by
  rw [select_eq]
  by_cases h : (part1 q limit).length < limit
  · rw [if_pos h, List.nodup_append]
    exact ⟨part1_nodup q limit, extra_nodup q limit,
      fun a ha hb => extra_not_mem_part1 q limit a hb ha⟩
  · rw [if_neg h]
    exact part1_nodup q limit

/-- The selection never repeats a `source`. -/
theorem select_sources_nodup (q : String) (limit : Nat) :
    ((_select_teachings q limit).map (fun t => t.source)).Nodup := by
  apply List.Nodup.map_on _ (select_nodup q limit)
  intro x hx y hy hxy
  exact List.inj_on_of_nodup_map sources_nodup
    (select_subset q limit x hx) (select_subset q limit y hy) hxy

/-- The selection is ordered by `scoreRank`: strictly decreasing score,
ties (including the whole zero-score fallback tail) in corpus order. -/
theorem select_pairwise (q : String) (limit : Nat) :
    (_select_teachings q limit).Pairwise (scoreRank q) := by
  rw [select_eq]
  have hpart : (part1 q limit).Pairwise (scoreRank q) :=
    (ranked_rank_pairwise q).sublist (part1_sublist q limit)
  by_cases h : (part1 q limit).length < limit
  · rw [if_pos h, List.pairwise_append]
    refine ⟨hpart, ?_, ?_⟩
    · rw [List.pairwise_iff_forall_sublist]
      intro a b hab
      have ha : a ∈ extraOf q limit := hab.subset (by simp)
      have hb : b ∈ extraOf q limit := hab.subset (by simp)
      refine Or.inr ⟨?_, hab.trans (extra_sublist q limit)⟩
      rw [extra_score_zero q limit h a ha, extra_score_zero q limit h b hb]
    · intro a ha b hb
      exact Or.inl (by
        rw [extra_score_zero q limit h b hb]
        exact part1_pos q limit a ha)
  · rw [if_neg h]
    exact hpart

/-! ## Stripping is idempotent -/

theorem dropWhile_dropWhile {α : Type} (p : α → Bool) (l : List α) :
    (l.dropWhile p).dropWhile p = l.dropWhile p := by
  induction l with
  | nil => rfl
  | cons x xs ih =>
    by_cases h : p x
    · simp [List.dropWhile_cons, h, ih]
    · simp [List.dropWhile_cons, h]

theorem dropWhile_head_false {α : Type} (p : α → Bool) :
    ∀ (l : List α) {c : α} {m : List α}, l.dropWhile p = c :: m → p c = false := by
  intro l
  induction l with
  | nil => intro c m h; cases h
  | cons x xs ih =>
    intro c m h
    rw [List.dropWhile_cons] at h
    by_cases hx : p x
    · rw [if_pos hx] at h
      exact ih h
    · rw [if_neg hx] at h
      cases h
      simpa using hx

/-- A list whose leading whitespace is gone keeps that property after its
trailing whitespace is also removed. -/
theorem dropWhile_of_stripped {α : Type} (p : α → Bool) (l : List α) :
    (((l.dropWhile p).reverse.dropWhile p).reverse).dropWhile p =
      ((l.dropWhile p).reverse.dropWhile p).reverse := by
  cases hy : l.dropWhile p with
  | nil => simp
  | cons c m =>
    have hc : p c = false := dropWhile_head_false p l hy
    rw [List.reverse_cons, List.dropWhile_append]
    by_cases hm : (m.reverse.dropWhile p).isEmpty = true
    · rw [if_pos hm]
      simp [List.dropWhile_cons, hc]
    · rw [if_neg hm, List.reverse_append]
      simp [List.dropWhile_cons, hc]

theorem stripChars_idem (l : List Char) : stripChars (stripChars l) = stripChars l := by
  have h1 : (stripChars l).dropWhile Char.isWhitespace = stripChars l :=
    dropWhile_of_stripped Char.isWhitespace l
  have h2 : (stripChars l).reverse =
      (l.dropWhile Char.isWhitespace).reverse.dropWhile Char.isWhitespace := by
    unfold stripChars
    rw [List.reverse_reverse]
  show (((stripChars l).dropWhile Char.isWhitespace).reverse.dropWhile
      Char.isWhitespace).reverse = stripChars l
  rw [h1, h2, dropWhile_dropWhile]
  rfl

theorem pyStrip_idem (s : String) : pyStrip (pyStrip s) = pyStrip s := by
  show String.mk (stripChars (String.mk (stripChars s.data)).data) = String.mk (stripChars s.data)
  rw [show (String.mk (stripChars s.data)).data = stripChars s.data from rfl, stripChars_idem]

/-- `generate_reply` strips its prompt itself, so pre-stripping the prompt
changes nothing. -/
theorem generate_reply_pyStrip (prompt tone : String) :
    generate_reply prompt tone = generate_reply (pyStrip prompt) tone := by
  simp only [generate_reply, pyStrip_idem]

/-! ## Newline counting -/

theorem countNL_append (a b : String) : countNL (a ++ b) = countNL a + countNL b := by
  simp [countNL, String.data_append]

theorem nlSplitAux_length : ∀ (l acc : List Char),
    (nlSplitAux acc l).length = l.count '\n' + 1 := by
  intro l
  induction l with
  | nil => intro acc; rfl
  | cons c cs ih =>
    intro acc
    by_cases h : c = '\n'
    · simp [nlSplitAux, h, ih, List.count_cons]
    · simp [nlSplitAux, h, ih, List.count_cons]

theorem nlLines_length (s : String) : (nlLines s).length = countNL s + 1 :=
  nlSplitAux_length s.data []

theorem countNL_pyStrip_le (s : String) : countNL (pyStrip s) ≤ countNL s := by
  show (stripChars s.data).count '\n' ≤ s.data.count '\n'
  unfold stripChars
  rw [List.count_reverse]
  calc ((s.data.dropWhile Char.isWhitespace).reverse.dropWhile Char.isWhitespace).count '\n'
      ≤ (s.data.dropWhile Char.isWhitespace).reverse.count '\n' :=
        (List.dropWhile_sublist _).count_le _
    _ = (s.data.dropWhile Char.isWhitespace).count '\n' := List.count_reverse _ _
    _ ≤ s.data.count '\n' := (List.dropWhile_sublist _).count_le _

theorem countNL_pyStrip_zero {s : String} (h : countNL s = 0) : countNL (pyStrip s) = 0 :=
  Nat.le_zero.mp (h ▸ countNL_pyStrip_le s)

theorem corpus_noNL : ∀ t ∈ TEACHINGS, countNL t.source = 0 ∧ countNL t.text = 0 := by
  decide

/-- Newline count of a reply whose prompt is newline-free: 5 for the
poetic tone's six lines, 4 for the five lines of every other tone. -/
theorem reply_countNL (prompt tone : String) (h : countNL prompt = 0) :
    countNL (generate_reply prompt tone) = if tone = "poetic" then 5 else 4 := by
  have hq : countNL (pyStrip prompt) = 0 := countNL_pyStrip_zero h
  have hlen : (_select_teachings (pyStrip prompt) 2).length = 2 := by
    rw [select_length]; decide
  obtain ⟨a, b, hab⟩ := List.length_eq_two.mp hlen
  have haT : a ∈ TEACHINGS := select_subset _ _ a (by rw [hab]; simp)
  have hbT : b ∈ TEACHINGS := select_subset _ _ b (by rw [hab]; simp)
  obtain ⟨hsa, hta⟩ := corpus_noNL a haT
  obtain ⟨hsb, htb⟩ := corpus_noNL b hbT
  by_cases h1 : tone = "poetic"
  · subst h1
    rw [if_pos rfl]
    have hg : generate_reply prompt "poetic" =
        joinLines (["You ask beneath the banyan: ‘" ++ pyStrip prompt ++ "’.",
            "Listen — tradition hums like a veena across ages:"]
          ++ (_select_teachings (pyStrip prompt) 2).map
              (fun t => "• " ++ t.text ++ " — " ++ t.source)
          ++ ["Between breath and breath, carry compassion and clarity.",
              "Walk as a flame that warms but does not burn."]) := rfl
    rw [hg, hab]
    simp only [List.map_cons, List.map_nil, List.cons_append, List.nil_append,
      joinLines, countNL_append, hq, hsa, hta, hsb, htb]
    decide
  · rw [if_neg h1]
    by_cases h2 : tone = "scientific"
    · subst h2
      have hg : generate_reply prompt "scientific" =
          joinLines (["Question: " ++ pyStrip prompt,
              "Contextual retrieval: selected teachings based on lexical overlap and tags."]
            ++ numbered 1 (_select_teachings (pyStrip prompt) 2)
            ++ ["Synthesis: Across Hindu, Buddhist, and Jain sources, action aligned with duty, disciplined mind, and non-violence emerge as convergent principles."]) := rfl
      rw [hg, hab]
      simp only [numbered, List.cons_append, List.nil_append,
        joinLines, countNL_append, hq, hsa, hta, hsb, htb]
      decide
    · by_cases h3 : tone = "traditional"
      · subst h3
        have hg : generate_reply prompt "traditional" =
            joinLines (["You inquire: " ++ pyStrip prompt,
                "Hear what elders preserve:"]
              ++ (_select_teachings (pyStrip prompt) 2).map
                  (fun t => "• " ++ t.source ++ ": " ++ t.text)
              ++ ["Take what is good, test by conduct, and proceed with humility."]) := rfl
        rw [hg, hab]
        simp only [List.map_cons, List.map_nil, List.cons_append, List.nil_append,
          joinLines, countNL_append, hq, hsa, hta, hsb, htb]
        decide
      · simp only [generate_reply]
        rw [if_neg h1, if_neg h2, if_neg h3, hab]
        simp only [List.map_cons, List.map_nil, List.cons_append, List.nil_append,
          joinLines, countNL_append, hq, hsa, hta, hsb, htb]
        decide

/-! ## Claims -/

/-- C1: for every query and every limit ≥ 1, `_select_teachings` returns
exactly `min limit 6` entries, where 6 is the size of `TEACHINGS`; in
particular the default limit 2 always yields exactly 2 entries. -/
theorem C1_select_length (q : String) (limit : Nat) (_h : 1 ≤ limit) :
    TEACHINGS.length = 6 ∧ (_select_teachings q limit).length = min limit 6 ∧
      (_select_teachings q 2).length = 2 := by
  refine ⟨rfl, select_length q limit, ?_⟩
  rw [select_length]
  decide

theorem C1_witness :
    1 ≤ 3 ∧ (TEACHINGS.length = 6 ∧ (_select_teachings "karma" 3).length = min 3 6 ∧
      (_select_teachings "karma" 2).length = 2) :=
  ⟨by decide, C1_select_length "karma" 3 (by decide)⟩

/-- C2: for every query and limit, the selection is sorted by
non-increasing `_score`, and entries with equal scores (including the
whole zero-score fallback tail) keep their relative order from
`TEACHINGS`. -/
theorem C2_select_sorted (q : String) (limit : Nat) :
    (_select_teachings q limit).Pairwise (scoreRank q) :=
  select_pairwise q limit

/-- C3: `_score` equals twice the number of whitespace-separated tag
tokens occurring as substrings of the lowercased query plus one per
whitespace-separated word of the lowercased query longer than 4
characters occurring as a substring of the lowercased entry text, and it
is never negative. -/
theorem C3_score_formula (t : Teaching) (q : String) :
    _score t q =
      2 * (((pySplit t.tags).filter (fun token => strIn token (pyLower q))).length : Int) +
        (((pySplit (pyLower q)).filter
          (fun word => decide (4 < word.length) && strIn word (pyLower t.text))).length : Int) ∧
      0 ≤ _score t q :=
  ⟨score_eq t q, score_nonneg t q⟩

/-- C4: for every query and limit, no two selected entries share a
`source`: the fallback fill never re-appends a present entry. -/
theorem C4_no_duplicate_sources (q : String) (limit : Nat) :
    ((_select_teachings q limit).map (fun t => t.source)).Nodup :=
  select_sources_nodup q limit

/-- C5: on the empty query every corpus entry scores 0, and the
selection at limit 2 is exactly the first two corpus entries in corpus
order (the fallback path), not an empty list. -/
theorem C5_empty_query_fallback :
    (∀ t ∈ TEACHINGS, _score t "" = 0) ∧
      _select_teachings "" 2 = TEACHINGS.take 2 ∧ _select_teachings "" 2 ≠ [] :=
  ⟨by decide, by decide, by decide⟩

/-- C6: on the query "What does Krishna teach about duty and karma?"
with limit 2, the Bhagavad Gita 2.47 entry is ranked first of the two
picks, and the scientific reply begins with the line
"Question: What does Krishna teach about duty and karma?". -/
theorem C6_krishna_query :
    ((_select_teachings "What does Krishna teach about duty and karma?" 2).map
        (fun t => t.source)).head? = some "Bhagavad Gita 2.47" ∧
      (_select_teachings "What does Krishna teach about duty and karma?" 2).length = 2 ∧
      ("Question: What does Krishna teach about duty and karma?\n".data.isPrefixOf
        (generate_reply "What does Krishna teach about duty and karma?" "scientific").data) =
        true :=
  ⟨by decide, by decide, by decide⟩

/-- C7: every tone outside poetic/scientific/traditional renders exactly
as the neutral tone; no tone value fails. -/
theorem C7_unknown_tone_neutral (prompt tone : String)
    (h₁ : tone ≠ "poetic") (h₂ : tone ≠ "scientific") (h₃ : tone ≠ "traditional") :
    generate_reply prompt tone = generate_reply prompt "neutral" := by
  simp [generate_reply, h₁, h₂, h₃]

theorem C7_witness :
    (("formal" : String) ≠ "poetic") ∧ (("formal" : String) ≠ "scientific") ∧
      (("formal" : String) ≠ "traditional") ∧
      generate_reply "hi" "formal" = generate_reply "hi" "neutral" :=
  ⟨by decide, by decide, by decide,
    C7_unknown_tone_neutral "hi" "formal" (by decide) (by decide) (by decide)⟩

/-- C8: the core is deterministic: equal inputs to `_select_teachings`
and `generate_reply` give equal outputs (no hidden randomness or state). -/
theorem C8_deterministic (p₁ p₂ tone₁ tone₂ : String) (l₁ l₂ : Nat)
    (hp : p₁ = p₂) (hl : l₁ = l₂) (ht : tone₁ = tone₂) :
    _select_teachings p₁ l₁ = _select_teachings p₂ l₂ ∧
      generate_reply p₁ tone₁ = generate_reply p₂ tone₂ := by
  subst hp; subst hl; subst ht
  exact ⟨rfl, rfl⟩

theorem C8_witness :
    ("om" : String) = "om" ∧ (2 : Nat) = 2 ∧ ("poetic" : String) = "poetic" ∧
      (_select_teachings "om" 2 = _select_teachings "om" 2 ∧
        generate_reply "om" "poetic" = generate_reply "om" "poetic") :=
  ⟨rfl, rfl, rfl, C8_deterministic "om" "om" "poetic" "poetic" 2 2 rfl rfl rfl⟩

/-- C9: `generate_reply` strips the prompt itself: pre-stripping changes
nothing, and a whitespace-only prompt behaves exactly like the empty
query. -/
theorem C9_strip_invariance (prompt tone : String) :
    generate_reply prompt tone = generate_reply (pyStrip prompt) tone ∧
      generate_reply "   " tone = generate_reply "" tone := by
  refine ⟨generate_reply_pyStrip prompt tone, ?_⟩
  have h := generate_reply_pyStrip "   " tone
  rwa [show pyStrip "   " = "" by decide] at h

/-- C10 (amended): every reply is built from exactly two picks, and when
the prompt contains no newline character the reply consists of exactly 5
newline-separated lines (6 for the poetic tone). -/
theorem C10_two_picks_per_reply (prompt tone : String) :
    (_select_teachings (pyStrip prompt) 2).length = 2 ∧
      (countNL prompt = 0 →
        (nlLines (generate_reply prompt tone)).length =
          if tone = "poetic" then 6 else 5) := by
  constructor
  · rw [select_length]; decide
  · intro h
    rw [nlLines_length, reply_countNL prompt tone h]
    by_cases h1 : tone = "poetic" <;> simp [h1]

theorem C10_witness :
    countNL "hi" = 0 ∧
      (nlLines (generate_reply "hi" "neutral")).length =
        (if ("neutral" : String) = "poetic" then 6 else 5) :=
  ⟨by decide, (C10_two_picks_per_reply "hi" "neutral").2 (by decide)⟩

/-- C10, counterexample to the claim as stated: a prompt containing a
newline is echoed verbatim into the reply, so the neutral rendering of
the prompt "a\nb" has 6 newline-separated lines, not 5. -/
theorem C10_counterexample : (nlLines (generate_reply "a\nb" "neutral")).length ≠ 5 := by
  decide
